import Mathlib

/-!
Verification of the Habit Analytics & Streak Engine of this repository
against its natural-language specification.

The analytics code lives in the Express route handlers
(`GET /api/analytics/overview`, `/habit/:habitId`, `/heatmap`, `/trends`,
plus the helpers `generatePredictions`, `generateInsights`,
`getNextMilestone`) and in the `TrackingEntry` model statics
(`getCurrentStreak`, `getHabitAnalytics`).

Modelling conventions:
* Calendar dates are integers counting calendar days (all stored record
  dates are normalized to midnight by `setHours(0, 0, 0, 0)` on creation,
  so day arithmetic such as `setDate(getDate() - 1)` is a step of one).
* Percentages and averages are exact rationals; `Math.round` is modelled
  as round-half-up (`jsRound`), which is what JS does for the non-negative
  values arising here.
* Fallible/optional JS values (`null` fields, absent predictions) are
  `Option`.
-/

namespace HabitAnalytics

set_option maxRecDepth 100000

/-- A tracking record (the `TrackingEntry` schema): a dated completion fact
with optional 1-5 mood and difficulty ratings.  `date` is a calendar-day
number; the persistence layer guarantees at most one record per
(habit, day). -/
structure TrackingEntry where
  date : Int
  completed : Bool
  mood : Option Int := none
  difficulty : Option Int := none
deriving Repr, DecidableEq

/-- JS `Math.round`: round half toward positive infinity. -/
def jsRound (q : ℚ) : Int := ⌊q + 1 / 2⌋

/-- JS truthiness of an optional numeric field (`null` and `0` are falsy);
used by the `e.mood && e.completed` filters. -/
def jsTruthy (o : Option Int) : Bool :=
  match o with
  | none => false
  | some v => v != 0

/-- Number of records with `completed = true`
(`entries.filter(e => e.completed).length`). -/
def completedCount (entries : List TrackingEntry) : Nat :=
  (entries.filter (·.completed)).length

/-! ## Completion rates (GET /api/analytics/overview and /habit/:habitId) -/

/-- Overview completion rate: `totalPossibleEntries = habits.length * days`,
`completionRate = totalPossibleEntries > 0 ?
(completedEntries / totalPossibleEntries) * 100 : 0`. -/
def overviewCompletionRate (habitCount : Nat) (days : Int)
    (entries : List TrackingEntry) : ℚ :=
  let totalPossibleEntries : Int := habitCount * days
  if totalPossibleEntries > 0 then
    (completedCount entries : ℚ) / (totalPossibleEntries : ℚ) * 100
  else 0

/-- Per-habit completion rate: `trackedDays = entries.length`,
`completionRate = trackedDays > 0 ? (completedDays / trackedDays) * 100 : 0`. -/
def habitCompletionRate (entries : List TrackingEntry) : ℚ :=
  let trackedDays := entries.length
  let completedDays := completedCount entries
  if trackedDays > 0 then (completedDays : ℚ) / (trackedDays : ℚ) * 100
  else 0

/-! ## Window-parameter handling (C7) -/

/-- The `days` query-parameter handling of the overview and per-habit
routes: `const { days = 30 } = req.query` followed by `parseInt(days)`.
The destructuring default fires only when the parameter is absent; a
supplied value is parsed and used exactly as given. -/
def effectiveDays (daysParam : Option Int) : Int :=
  match daysParam with
  | none => 30
  | some d => d

/-- The `period` switch of GET /api/analytics/trends: week/month/quarter/year
map to 7/30/90/365 days, anything else falls to the `default: days = 30`
branch. -/
def periodDays (period : String) : Nat :=
  if period = "week" then 7
  else if period = "month" then 30
  else if period = "quarter" then 90
  else if period = "year" then 365
  else 30

/-- The `groupBy` mapping of GET /api/analytics/trends:
`groupBy === 'day' ? 1 : groupBy === 'week' ? 7 : 30`. -/
def groupSize (groupBy : String) : Nat :=
  if groupBy = "day" then 1 else if groupBy = "week" then 7 else 30

/-! ## Milestones (getNextMilestone) -/

/-- The fixed milestone ladder of `getNextMilestone`. -/
def milestones : List Nat := [7, 14, 21, 30, 60, 90, 180, 365]

/-- `getNextMilestone`: the first milestone strictly above the current
streak (`milestones.find(m => m > currentStreak)`), paired with
`remaining = milestone - currentStreak`; `null` when none exceeds. -/
def getNextMilestone (currentStreak : Nat) : Option (Nat × Nat) :=
  (milestones.find? (fun m => decide (currentStreak < m))).map
    (fun m => (m, m - currentStreak))

/-! ## Insights (generateInsights) -/

/-- The six distinct insight messages `generateInsights` can emit, in
source order: the three completion-rate band messages, the two streak
messages, and the recent-consistency message. -/
inductive InsightMsg
  | rateSuccess
  | rateWarning
  | rateDanger
  | streakSuccess
  | streakStart
  | recentConsistency
deriving Repr, DecidableEq

/-- `generateInsights(entries, habit, completionRate, currentStreak)`
(the `habit` argument is unused by the body and omitted here).  Rule 3
compares against the literal `0.8`; for the integer counts 0..7 involved
the exact rational 4/5 decides identically to the JS double. -/
def generateInsights (entries : List TrackingEntry) (completionRate : ℚ)
    (currentStreak : Nat) : List InsightMsg :=
  let rateMsgs : List InsightMsg :=
    if completionRate ≥ 80 then [.rateSuccess]
    else if completionRate ≥ 60 then [.rateWarning]
    else if completionRate < 40 then [.rateDanger]
    else []
  let streakMsgs : List InsightMsg :=
    if currentStreak ≥ 7 then [.streakSuccess]
    else if currentStreak = 0 then [.streakStart]
    else []
  let recentEntries := entries.drop (entries.length - 7)
  let recentCompletions := completedCount recentEntries
  let recentMsgs : List InsightMsg :=
    if (recentCompletions : ℚ) > (recentEntries.length : ℚ) * (4 / 5) then
      [.recentConsistency]
    else []
  rateMsgs ++ streakMsgs ++ recentMsgs

/-! ## Current streak (TrackingEntry.getCurrentStreak) -/

/-- One step of insertion sort by descending value; together with
`sortDesc` this models the `sort({ date: -1 })` of the completed-entry
query. -/
def insertDesc (e : Int) : List Int → List Int
  | [] => [e]
  | x :: xs => if x ≤ e then e :: x :: xs else x :: insertDesc e xs

/-- Sort a list of dates in descending order. -/
def sortDesc (l : List Int) : List Int := l.foldr insertDesc []

/-- The backward walk of `getCurrentStreak` over the fetched dates (all of
which belong to completed entries): a date equal to the current target day
extends the streak and moves the target one day back; an older date ends
the walk (`break`); a newer date is passed over (the loop's implicit
third case). -/
def streakWalk : List Int → Int → Nat
  | [], _ => 0
  | d :: rest, cur =>
    if d = cur then streakWalk rest (cur - 1) + 1
    else if d < cur then 0
    else streakWalk rest cur

/-- `TrackingEntry.getCurrentStreak`: fetch the dates of completed entries
sorted descending and limited to the 100 most recent; return 0 when there
are none; otherwise anchor at today when today appears among them and at
yesterday otherwise, then walk backward.  `today` is the current calendar
day of the server clock. -/
def getCurrentStreak (records : List TrackingEntry) (today : Int) : Nat :=
  let entries :=
    (sortDesc ((records.filter (·.completed)).map (·.date))).take 100
  if entries.isEmpty then 0
  else
    let anchor := if entries.contains today then today else today - 1
    streakWalk entries anchor

/-- Whether some record marks day `d` completed. -/
def hasCompleted (records : List TrackingEntry) (d : Int) : Bool :=
  records.any (fun e => e.date == d && e.completed)

/-- Backward day-walk over an abstract day predicate, with fuel; counts
how many consecutive days starting at `d` and going backward satisfy the
predicate (up to the fuel bound). -/
def predWalk (P : Int → Bool) : Nat → Int → Nat
  | 0, _ => 0
  | fuel + 1, d => if P d then predWalk P fuel (d - 1) + 1 else 0

/-- `currentStreak` as §4.2 of the spec words it: the anchor day is today
when today has a completed record and yesterday otherwise; the streak is
the number of consecutive days, walking backward from the anchor, that
have a record with `completed = true`.  The fuel `records.length + 1`
is sufficient because distinct days need distinct records. -/
def specCurrentStreak (records : List TrackingEntry) (today : Int) : Nat :=
  let anchor := if hasCompleted records today then today else today - 1
  predWalk (hasCompleted records) (records.length + 1) anchor

/-! ## Predictions (generatePredictions) -/

/-- The `streakTarget` sub-object of a prediction. -/
structure StreakTargetPrediction where
  target : Int
  current : Nat
  daysRemaining : Int
  estimatedDate : Option Int
deriving Repr, DecidableEq

/-- The value returned by `generatePredictions`. -/
structure Predictions where
  streakTarget : Option StreakTargetPrediction
  nextMilestone : Option (Nat × Nat)
  probabilityOfSuccess : Int
deriving Repr, DecidableEq

/-- `generatePredictions(entries, habit, currentStreak)`: early return with
null fields when the window has no completed entry; otherwise the target is
`habit.streakTarget || 7` (JS `||`: `null`/`0` fall back to 7),
`daysRemaining = Math.max(0, streakTarget - currentStreak)` and
`estimatedDate` is today plus the remaining days when positive, else null.
`today` stands for `Date.now()` at day granularity. -/
def generatePredictions (entries : List TrackingEntry)
    (streakTargetField : Option Int) (currentStreak : Nat) (today : Int) :
    Predictions :=
  if completedCount entries = 0 then
    { streakTarget := none, nextMilestone := none, probabilityOfSuccess := 0 }
  else
    let target : Int :=
      match streakTargetField with
      | none => 7
      | some t => if t = 0 then 7 else t
    let daysToTarget : Int := max 0 (target - currentStreak)
    { streakTarget := some
        { target := target
          current := currentStreak
          daysRemaining := daysToTarget
          estimatedDate :=
            if daysToTarget > 0 then some (today + daysToTarget) else none }
      nextMilestone := getNextMilestone currentStreak
      probabilityOfSuccess :=
        jsRound ((completedCount entries : ℚ) / (entries.length : ℚ) * 100) }

/-! ## Mood / difficulty averages (C8) -/

/-- The per-habit route's `averageMood`: mean over
`entries.filter(e => e.mood && e.completed)`, `null` when that filter is
empty. -/
def endpointAverageMood (entries : List TrackingEntry) : Option ℚ :=
  let moodEntries := entries.filter (fun e => jsTruthy e.mood && e.completed)
  if moodEntries.length > 0 then
    some (((moodEntries.map (fun e => e.mood.getD 0)).sum : ℚ) /
      (moodEntries.length : ℚ))
  else none

/-- The per-habit route's `averageDifficulty`: mean over
`entries.filter(e => e.difficulty && e.completed)`, `null` when empty. -/
def endpointAverageDifficulty (entries : List TrackingEntry) : Option ℚ :=
  let diffEntries :=
    entries.filter (fun e => jsTruthy e.difficulty && e.completed)
  if diffEntries.length > 0 then
    some (((diffEntries.map (fun e => e.difficulty.getD 0)).sum : ℚ) /
      (diffEntries.length : ℚ))
  else none

/-- `getHabitAnalytics`'s `averageMood: { $avg: '$mood' }`: MongoDB `$avg`
averages the non-null `mood` values of every matched document — the match
stage filters only by habit and date window, never by `completed` — and
yields null when no document has the field. -/
def aggregateAverageMood (entries : List TrackingEntry) : Option ℚ :=
  let vals := (entries.filter (fun e => e.mood.isSome)).map (fun e => e.mood.getD 0)
  if vals.length > 0 then some ((vals.sum : ℚ) / (vals.length : ℚ)) else none

/-- Modelled from the spec (§4.3): the mood average the spec describes —
the arithmetic mean over only the records with `completed = true` and the
mood field set, absent when no record qualifies.  Used to compare the
source's two computations against the spec's single description. -/
def specAverageMood (entries : List TrackingEntry) : Option ℚ :=
  let qual := entries.filter (fun e => e.completed && e.mood.isSome)
  if qual.length > 0 then
    some (((qual.map (fun e => e.mood.getD 0)).sum : ℚ) / (qual.length : ℚ))
  else none

/-- Modelled from the spec (§4.3): the difficulty average the spec
describes, mean over completed records with the field set. -/
def specAverageDifficulty (entries : List TrackingEntry) : Option ℚ :=
  let qual := entries.filter (fun e => e.completed && e.difficulty.isSome)
  if qual.length > 0 then
    some (((qual.map (fun e => e.difficulty.getD 0)).sum : ℚ) /
      (qual.length : ℚ))
  else none

/-! ## Heatmap (GET /api/analytics/heatmap) -/

/-- Gregorian leap-year rule, as implemented by the JS `Date` the heatmap
loop iterates with. -/
def isLeapYear (y : Int) : Bool :=
  (y % 4 == 0 && y % 100 != 0) || y % 400 == 0

/-- Length of month `m` (0-based, as JS months are). -/
def monthLength (leap : Bool) (m : Nat) : Nat :=
  [31, if leap then 29 else 28, 31, 30, 31, 30, 31, 31, 30, 31, 30, 31].getD m 0

/-- Number of calendar days from January 1st through December 31st of a
year — the number of iterations of the heatmap initialization loop
`for (let d = startDate; d <= endDate; d.setDate(d.getDate() + 1))`. -/
def daysInYear (y : Int) : Nat :=
  ((List.range 12).map (monthLength (isLeapYear y))).sum

/-- One heatmap cell; `date` is the day's offset from January 1st (the
date-string key of the JS object), `habits` the per-habit detail list in
push order (habit index paired with its completed flag). -/
structure HeatmapCell where
  date : Nat
  totalHabits : Nat
  completedHabits : Nat
  completionRate : ℚ
  habits : List (Nat × Bool)
deriving Repr, DecidableEq

/-- A record as the heatmap fold consumes it: the habit it references,
its day-of-year offset, and the completed flag. -/
structure YearRecord where
  habit : Nat
  day : Nat
  completed : Bool
deriving Repr, DecidableEq

/-- The zero state every day is pre-initialized to. -/
def zeroCell (habitCount : Nat) (day : Nat) : HeatmapCell :=
  { date := day
    totalHabits := habitCount
    completedHabits := 0
    completionRate := 0
    habits := [] }

/-- The initialization loop: one zero cell per day of the year. -/
def heatmapInit (habitCount : Nat) (year : Int) : List HeatmapCell :=
  (List.range (daysInYear year)).map (zeroCell habitCount)

/-- Folding one record into a cell: push the habit detail, bump
`completedHabits` when completed, recompute the completion rate. -/
def updateCell (c : HeatmapCell) (r : YearRecord) : HeatmapCell :=
  let completed' := c.completedHabits + (if r.completed then 1 else 0)
  { c with
    habits := c.habits ++ [(r.habit, r.completed)]
    completedHabits := completed'
    completionRate := (completed' : ℚ) / (c.totalHabits : ℚ) * 100 }

/-- `entries.forEach` body: the `if (heatmapData[dateStr])` guard means a
record updates a cell only when its date was initialized (is in range). -/
def applyRecord (cells : List HeatmapCell) (r : YearRecord) :
    List HeatmapCell :=
  match cells.get? r.day with
  | none => cells
  | some c => cells.set r.day (updateCell c r)

/-- GET /api/analytics/heatmap: with no active habits the route returns
`heatmapData: {}` at once; otherwise it initializes every day of the year
to the zero state and folds the year's records in. -/
def heatmapEndpoint (habitCount : Nat) (year : Int)
    (records : List YearRecord) : List HeatmapCell :=
  if habitCount = 0 then []
  else records.foldl applyRecord (heatmapInit habitCount year)

/-! ## Trend buckets (GET /api/analytics/trends) -/

/-- Count of dates in the half-open interval `[lo, hi)` — the bucket filter
`e.date >= periodStart && e.date < periodEnd`. -/
def countIn (dates : List Int) (lo hi : Int) : Nat :=
  dates.countP (fun d => decide (lo ≤ d ∧ d < hi))

/-- Count of dates the route's record query fetches: the closed window
`date: { $gte: startDate, $lte: endDate }`. -/
def windowCount (dates : List Int) (lo hi : Int) : Nat :=
  dates.countP (fun d => decide (lo ≤ d ∧ d ≤ hi))

/-- The bucket loop `for (let i = 0; i < days; i += groupSize)`, emitting
day-offset intervals `[i, min (i + groupSize) days)`; the final bucket is
clipped to the window end `Math.min(..., endDate.getTime())`.  Structural
fuel: each iteration advances `i` by at least one day, so `days` steps
always suffice. -/
def periodsFromAux (fuel days g i : Nat) : List (Nat × Nat) :=
  match fuel with
  | 0 => []
  | fuel + 1 =>
    if 0 < g ∧ i < days then
      (i, min (i + g) days) :: periodsFromAux fuel days g (i + g)
    else []

/-- The bucket intervals of a `days`-long window grouped by `g`-day steps. -/
def trendPeriods (days g : Nat) : List (Nat × Nat) :=
  periodsFromAux days days g 0

/-- The `totalEntries` field of each trend bucket, in loop order. -/
def bucketTotals (start : Int) (days g : Nat) (dates : List Int) :
    List Nat :=
  (trendPeriods days g).map
    (fun p => countIn dates (start + (p.1 : Int)) (start + (p.2 : Int)))

/-! ## General helper lemmas -/

/-- On a list sorted in nondecreasing order, `find?` with the predicate
`cs < ·` returns an element that is minimal among all elements above
`cs`. -/
theorem find_first_of_sorted {l : List Nat} {cs m : Nat}
    (hs : l.Pairwise (· ≤ ·))
    (h : l.find? (fun x => decide (cs < x)) = some m) :
    m ∈ l ∧ cs < m ∧ ∀ x ∈ l, cs < x → m ≤ x := by
  induction l with
  | nil => simp at h
  | cons a t ih =>
    rcases List.pairwise_cons.mp hs with ⟨ha, ht⟩
    by_cases hca : cs < a
    · rw [List.find?_cons_of_pos _ (by simpa using hca)] at h
      obtain rfl : a = m := by simpa using h
      refine ⟨List.mem_cons_self _ _, hca, ?_⟩
      intro x hx _
      rcases List.mem_cons.mp hx with rfl | hx
      · exact le_refl x
      · exact ha x hx
    · rw [List.find?_cons_of_neg _ (by simpa using hca)] at h
      obtain ⟨hm, hcm, hmin⟩ := ih ht h
      refine ⟨List.mem_cons_of_mem _ hm, hcm, ?_⟩
      intro x hx hcx
      rcases List.mem_cons.mp hx with rfl | hx
      · exact absurd hcx hca
      · exact hmin x hx hcx

/-! ## Claim C7 — window-parameter defaulting -/

/-- Claim C7, as stated, is false: a supplied non-positive `days` value is
NOT replaced by the default 30.  The destructuring default of
`const \x7b days = 30 \x7d = req.query` fires only when the parameter is
absent, so `days = -5` is parsed and used as-is. -/
theorem days_negative_not_defaulted_counterexample :
    effectiveDays (some (-5)) = -5 ∧ effectiveDays (some (-5)) ≠ 30 ∧
    (-5 : Int) ≤ 0 := by decide

/-- Claim C7 (amended): an absent `days` parameter defaults to 30, a
supplied value — positive or not — is used exactly as given, and an
unrecognized `period` value falls to the 30-day (month) mapping while the
four recognized values keep their documented day counts. -/
theorem window_parameter_defaults (p : String) (d : Int)
    (hw : p ≠ "week") (hm : p ≠ "month") (hq : p ≠ "quarter")
    (hy : p ≠ "year") :
    effectiveDays none = 30 ∧ effectiveDays (some d) = d ∧
    periodDays p = 30 ∧ periodDays "week" = 7 ∧ periodDays "month" = 30 ∧
    periodDays "quarter" = 90 ∧ periodDays "year" = 365 := by
  refine ⟨rfl, rfl, ?_, rfl, rfl, rfl, rfl⟩
  simp [periodDays, hw, hm, hq, hy]

/-- Witness for the amended C7 theorem at the concrete unrecognized period
"fortnight" and the concrete supplied value -5. -/
theorem window_parameter_defaults_witness :
    effectiveDays none = 30 ∧ effectiveDays (some (-5)) = -5 ∧
    periodDays "fortnight" = 30 ∧ periodDays "week" = 7 ∧
    periodDays "month" = 30 ∧ periodDays "quarter" = 90 ∧
    periodDays "year" = 365 :=
  window_parameter_defaults "fortnight" (-5) (by decide) (by decide)
    (by decide) (by decide)

/-! ## Claim C9 — next milestone -/

/-- Claim C9: `getNextMilestone` returns the smallest element of the fixed
milestone ladder strictly greater than the current streak, paired with
`milestone - currentStreak`; it returns none exactly when no milestone
exceeds the streak; and at streak 0 the result is (7, 7). -/
theorem nextMilestone_is_least_upper (cs : Nat) :
    (∀ m r, getNextMilestone cs = some (m, r) →
      m ∈ milestones ∧ cs < m ∧ r = m - cs ∧
      ∀ x ∈ milestones, cs < x → m ≤ x) ∧
    (getNextMilestone cs = none → ∀ x ∈ milestones, x ≤ cs) ∧
    getNextMilestone 0 = some (7, 7) := by
  refine ⟨?_, ?_, by decide⟩
  · intro m r h
    unfold getNextMilestone at h
    rcases Option.map_eq_some'.mp h with ⟨m0, hfind, heq⟩
    injection heq with h1 h2
    subst h1
    subst h2
    obtain ⟨hm, hcm, hmin⟩ := find_first_of_sorted (by decide) hfind
    exact ⟨hm, hcm, rfl, hmin⟩
  · intro h x hx
    unfold getNextMilestone at h
    rw [Option.map_eq_none'] at h
    rw [List.find?_eq_none] at h
    have := h x hx
    simp at this
    omega

/-- Witness for the C9 theorem: at streak 10 the milestone found is 14
with 4 days remaining, and 14 is minimal among milestones above 10. -/
theorem nextMilestone_is_least_upper_witness :
    14 ∈ milestones ∧ 10 < 14 ∧ 4 = 14 - 10 ∧
    ∀ x ∈ milestones, 10 < x → 14 ≤ x :=
  (nextMilestone_is_least_upper 10).1 14 4 (by decide)

/-! ## Claim C5 — completion-rate insight bands -/

/-- Claim C5: the completion-rate insight bands are exactly: success iff
rate at least 80, warning iff rate in [60, 80), danger iff rate below 40
(so danger fires at rate 0), and the neutral band [40, 60) emits no rate
message; moreover a habit with no records at all has completion rate 0 and
current streak 0, and its insight list contains both the danger message
and the start-your-streak info message. -/
theorem insight_rate_bands (entries : List TrackingEntry) (rate : ℚ)
    (cs : Nat) (today : Int) :
    (InsightMsg.rateSuccess ∈ generateInsights entries rate cs ↔ 80 ≤ rate) ∧
    (InsightMsg.rateWarning ∈ generateInsights entries rate cs ↔
      60 ≤ rate ∧ rate < 80) ∧
    (InsightMsg.rateDanger ∈ generateInsights entries rate cs ↔ rate < 40) ∧
    habitCompletionRate [] = 0 ∧
    getCurrentStreak [] today = 0 ∧
    InsightMsg.rateDanger ∈ generateInsights [] 0 0 ∧
    InsightMsg.streakStart ∈ generateInsights [] 0 0 := by
  refine ⟨?_, ?_, ?_, by norm_num [habitCompletionRate], rfl,
    by norm_num [generateInsights, completedCount], by norm_num [generateInsights, completedCount]⟩ <;>
  · simp only [generateInsights, List.mem_append]
    split_ifs <;> simp_all <;> linarith

/-! ## Claim C2 — the two completion-rate denominators -/

/-- Claim C2: the per-habit completion rate uses the number of records in
the window as denominator, while the overview rate uses
`habitCount * windowDays`; concretely, 10 habits over 30 days with exactly
150 completed records round to an overview rate of 50. -/
theorem completionRate_denominators :
    (∀ entries : List TrackingEntry, 0 < entries.length →
      habitCompletionRate entries * (entries.length : ℚ) =
        (completedCount entries : ℚ) * 100) ∧
    (∀ (n : Nat) (days : Int) (entries : List TrackingEntry),
      (0 : Int) < (n : Int) * days →
      overviewCompletionRate n days entries * (((n : Int) * days : Int) : ℚ) =
        (completedCount entries : ℚ) * 100) ∧
    completedCount (List.replicate 150 ⟨0, true, none, none⟩ ++
      List.replicate 150 ⟨0, false, none, none⟩) = 150 ∧
    jsRound (overviewCompletionRate 10 30
      (List.replicate 150 ⟨0, true, none, none⟩ ++
       List.replicate 150 ⟨0, false, none, none⟩)) = 50 := by
  refine ⟨?_, ?_, by decide, by
    norm_num [jsRound, overviewCompletionRate, completedCount,
      List.filter_append, List.filter_replicate]⟩
  · intro entries h
    unfold habitCompletionRate
    rw [if_pos h]
    have hne : (entries.length : ℚ) ≠ 0 := by positivity
    field_simp
  · intro n days entries h
    unfold overviewCompletionRate
    rw [if_pos h]
    have hn0 : n ≠ 0 := by rintro rfl; simp at h
    have hd0 : days ≠ 0 := by rintro rfl; simp at h
    have hn : (n : ℚ) ≠ 0 := Nat.cast_ne_zero.mpr hn0
    have hdays : (days : ℚ) ≠ 0 := Int.cast_ne_zero.mpr hd0
    push_cast
    field_simp

/-- Witness for the C2 theorem: a single-record list gives per-habit rate
100, and 1 habit over 1 day with that one completed record gives overview
rate 100. -/
theorem completionRate_denominators_witness :
    habitCompletionRate [⟨0, true, none, none⟩] * ((1 : Nat) : ℚ) =
      (completedCount [⟨0, true, none, none⟩] : ℚ) * 100 :=
  completionRate_denominators.1 [⟨0, true, none, none⟩] (by decide)

/-! ## Claim C4 — streak-target prediction -/

/-- Claim C4: whenever `generatePredictions` emits a streak-target
prediction, it satisfies `daysRemaining = max 0 (target - currentStreak)`
with `estimatedDate = today + daysRemaining` exactly when `daysRemaining`
is positive; and a habit with `streakTarget = 7` whose records are
completed on exactly the last 5 consecutive calendar days has current
streak 5 and prediction `daysRemaining = 2`. -/
theorem prediction_daysRemaining (entries : List TrackingEntry)
    (tOpt : Option Int) (cs : Nat) (today : Int)
    (p : StreakTargetPrediction) :
    ((generatePredictions entries tOpt cs today).streakTarget = some p →
      p.current = cs ∧
      p.daysRemaining = max 0 (p.target - (cs : Int)) ∧
      (0 < p.daysRemaining →
        p.estimatedDate = some (today + p.daysRemaining)) ∧
      (p.daysRemaining = 0 → p.estimatedDate = none)) ∧
    getCurrentStreak
      ((List.range 5).map (fun i => ⟨-(i : Int), true, none, none⟩)) 0 = 5 ∧
    (generatePredictions
      ((List.range 5).map (fun i => ⟨-(i : Int), true, none, none⟩))
      (some 7) 5 0).streakTarget =
        some { target := 7, current := 5, daysRemaining := 2,
               estimatedDate := some 2 } := by
  refine ⟨?_, by decide, by decide⟩
  intro h
  unfold generatePredictions at h
  by_cases hc : completedCount entries = 0
  · rw [if_pos hc] at h
    simp at h
  · rw [if_neg hc] at h
    obtain rfl := (Option.some.inj h).symm
    refine ⟨rfl, rfl, ?_, ?_⟩
    · intro hpos
      simp only at hpos ⊢
      rw [if_pos hpos]
    · intro hzero
      simp only at hzero ⊢
      rw [if_neg (by omega)]

/-- Witness for the C4 theorem: a concrete prediction (target 7, streak 3)
satisfies the formulas. -/
theorem prediction_daysRemaining_witness :
    (⟨7, 3, 4, some 4⟩ : StreakTargetPrediction).current = 3 ∧
    (⟨7, 3, 4, some 4⟩ : StreakTargetPrediction).daysRemaining =
      max 0 ((⟨7, 3, 4, some 4⟩ : StreakTargetPrediction).target - (3 : Int)) ∧
    (0 < (⟨7, 3, 4, some 4⟩ : StreakTargetPrediction).daysRemaining →
      (⟨7, 3, 4, some 4⟩ : StreakTargetPrediction).estimatedDate =
        some (0 + (⟨7, 3, 4, some 4⟩ : StreakTargetPrediction).daysRemaining)) ∧
    ((⟨7, 3, 4, some 4⟩ : StreakTargetPrediction).daysRemaining = 0 →
      (⟨7, 3, 4, some 4⟩ : StreakTargetPrediction).estimatedDate = none) :=
  (prediction_daysRemaining [⟨0, true, none, none⟩] (some 7) 3 0
    ⟨7, 3, 4, some 4⟩).1 (by decide)

/-! ## Claim C8 — mood and difficulty averages -/

/-- Claim C8, as stated, is false for the `getHabitAnalytics` aggregation:
on the single record (completed = false, mood = 3) the spec's
completed-only average is absent, yet the `$avg` pipeline — which never
filters by `completed` — reports 3. -/
theorem aggregate_mood_counts_uncompleted_counterexample :
    specAverageMood [⟨0, false, some 3, none⟩] = none ∧
    aggregateAverageMood [⟨0, false, some 3, none⟩] = some 3 := by
  constructor
  · norm_num [specAverageMood]
  · norm_num [aggregateAverageMood]

/-- Claim C8 (amended): the per-habit route's averages are the means over
records with `completed = true` and the field set, absent when none
qualifies, exactly as the spec words it; but the `getHabitAnalytics`
`$avg` aggregation averages over every record in the window with the
field set, ignoring `completed`, and is absent exactly when no record has
the field.  The hypotheses record the schema bounds (mood and difficulty
are 1-5, never 0), under which the JS truthiness test of the route
coincides with field presence. -/
theorem endpoint_averages_follow_spec (entries : List TrackingEntry)
    (hm : ∀ e ∈ entries, e.mood ≠ some 0)
    (hd : ∀ e ∈ entries, e.difficulty ≠ some 0) :
    endpointAverageMood entries = specAverageMood entries ∧
    endpointAverageDifficulty entries = specAverageDifficulty entries ∧
    (endpointAverageMood entries = none ↔
      entries.filter (fun e => e.completed && e.mood.isSome) = []) ∧
    (aggregateAverageMood entries = none ↔
      entries.filter (fun e => e.mood.isSome) = []) := by
  have hfm : entries.filter (fun e => jsTruthy e.mood && e.completed) =
      entries.filter (fun e => e.completed && e.mood.isSome) := by
    apply List.filter_congr
    intro e he
    have := hm e he
    cases hmood : e.mood with
    | none => simp [jsTruthy]
    | some v =>
      have hv : v ≠ 0 := by rw [hmood] at this; simpa using this
      simp [jsTruthy, hv, Bool.and_comm]
  have hfd : entries.filter (fun e => jsTruthy e.difficulty && e.completed) =
      entries.filter (fun e => e.completed && e.difficulty.isSome) := by
    apply List.filter_congr
    intro e he
    have := hd e he
    cases hdiff : e.difficulty with
    | none => simp [jsTruthy]
    | some v =>
      have hv : v ≠ 0 := by rw [hdiff] at this; simpa using this
      simp [jsTruthy, hv, Bool.and_comm]
  refine ⟨?_, ?_, ?_, ?_⟩
  · unfold endpointAverageMood specAverageMood
    rw [hfm]
  · unfold endpointAverageDifficulty specAverageDifficulty
    rw [hfd]
  · unfold endpointAverageMood
    rw [hfm]
    dsimp only
    split_ifs with h
    · constructor
      · intro hcontra; exact absurd hcontra (by simp)
      · intro he; rw [he] at h; simp at h
    · have hnil : entries.filter (fun e => e.completed && e.mood.isSome) = [] := by
        rw [← List.length_eq_zero]
        omega
      simp [hnil]
  · unfold aggregateAverageMood
    dsimp only
    split_ifs with h
    · constructor
      · intro hcontra; exact absurd hcontra (by simp)
      · intro he; rw [he] at h; simp at h
    · have hnil : entries.filter (fun e => e.mood.isSome) = [] := by
        rw [← List.length_eq_zero]
        simp only [List.length_map] at h
        omega
      simp [hnil]

/-- Witness for the amended C8 theorem at a concrete one-record list
(completed, mood 4): the endpoint average agrees with the spec's
completed-only average. -/
theorem endpoint_averages_follow_spec_witness :
    endpointAverageMood [⟨0, true, some 4, none⟩] =
      specAverageMood [⟨0, true, some 4, none⟩] :=
  (endpoint_averages_follow_spec [⟨0, true, some 4, none⟩]
    (by decide) (by decide)).1

/-! ## Claim C6 — trend buckets partition the window -/

/-- An empty half-open interval holds no dates. -/
theorem countIn_empty (dates : List Int) (lo hi : Int) (h : hi ≤ lo) :
    countIn dates lo hi = 0 := by
  unfold countIn
  rw [List.countP_eq_zero]
  intro d _
  simp only [decide_eq_true_eq, not_and, not_lt]
  omega

/-- Splitting a half-open interval at an interior point splits its count. -/
theorem countIn_split (dates : List Int) (a b c : Int) (hab : a ≤ b)
    (hbc : b ≤ c) :
    countIn dates a b + countIn dates b c = countIn dates a c := by
  induction dates with
  | nil => rfl
  | cons d t ih =>
    unfold countIn at ih ⊢
    rw [List.countP_cons, List.countP_cons, List.countP_cons]
    have e1 : ((if decide (a ≤ d ∧ d < b) = true then 1 else 0) : Nat) +
        (if decide (b ≤ d ∧ d < c) = true then 1 else 0) =
        (if decide (a ≤ d ∧ d < c) = true then 1 else 0) := by
      by_cases h1 : a ≤ d ∧ d < b <;> by_cases h2 : b ≤ d ∧ d < c <;>
        by_cases h3 : a ≤ d ∧ d < c <;> simp [h1, h2, h3] <;> omega
    omega

/-- The bucket loop starting at offset `i` accounts exactly for the dates
in `[start + i, start + days)`, provided the fuel covers the remaining
distance (each iteration advances by at least one). -/
theorem periodsFromAux_sum (dates : List Int) (start : Int) (days g : Nat)
    (hg : 0 < g) :
    ∀ fuel i, days - i ≤ fuel →
      ((periodsFromAux fuel days g i).map
        (fun p => countIn dates (start + (p.1 : Int))
          (start + (p.2 : Int)))).sum
      = countIn dates (start + (i : Int)) (start + (days : Int)) := by
  intro fuel
  induction fuel with
  | zero =>
    intro i hi
    simp only [periodsFromAux, List.map_nil, List.sum_nil]
    rw [countIn_empty]
    have : days ≤ i := by omega
    omega
  | succ f ih =>
    intro i hi
    unfold periodsFromAux
    by_cases hcond : 0 < g ∧ i < days
    · rw [if_pos hcond]
      simp only [List.map_cons, List.sum_cons]
      rw [ih (i + g) (by omega)]
      by_cases hle : i + g ≤ days
      · have hmin : min (i + g) days = i + g := by omega
        rw [hmin, countIn_split dates (start + (i : Int))
          (start + ((i + g : Nat) : Int)) (start + (days : Nat))
          (by push_cast; omega) (by push_cast; omega)]
      · have hmin : min (i + g) days = days := by omega
        rw [hmin, countIn_empty dates (start + ((i + g : Nat) : Int))
          (start + (days : Nat)) (by push_cast; omega)]
        omega
    · rw [if_neg hcond]
      simp only [List.map_nil, List.sum_nil]
      rw [countIn_empty]
      have : days ≤ i := by omega
      omega

/-- Claim C6 (amended): for every period, grouping, window start and record
set, the `totalEntries` bucket counts sum to the number of records in the
HALF-OPEN window `[startDate, endDate)` — each such record lands in
exactly one bucket; a record dated exactly at `endDate`, which the
`$lte`-fetch includes, lands in none (see the counterexample). -/
theorem trend_bucket_totals_partition (period groupBy : String)
    (start : Int) (dates : List Int) :
    (bucketTotals start (periodDays period) (groupSize groupBy) dates).sum
      = countIn dates start (start + (periodDays period : Int)) := by
  have hg : 0 < groupSize groupBy := by
    unfold groupSize
    split_ifs <;> norm_num
  have h := periodsFromAux_sum dates start (periodDays period)
    (groupSize groupBy) hg (periodDays period) 0 (by omega)
  simpa [bucketTotals, trendPeriods] using h

/-- Claim C6, as universally stated over the fetched ($gte/$lte) window, is
false: with a 30-day month window grouped by week and a single record dated
exactly at the window end, the fetch returns 1 record but the five buckets
[0,7), [7,14), [14,21), [21,28), [28,30) hold 0 entries in total. -/
theorem trend_endDate_record_dropped_counterexample :
    periodDays "month" = 30 ∧ groupSize "week" = 7 ∧
    windowCount [30] 0 (0 + 30) = 1 ∧
    (bucketTotals 0 30 7 [30]).sum = 0 := by decide

/-! ## Claim C1 — full-year heatmap -/

/-- Setting an index to an element with the same image leaves the map
unchanged. -/
theorem map_set_of_eq {α β : Type} (f : α → β) :
    ∀ (l : List α) (i : Nat) (a b : α), l.get? i = some b → f a = f b →
      (l.set i a).map f = l.map f := by
  intro l
  induction l with
  | nil => intro i a b h _; simp at h
  | cons x t ih =>
    intro i a b h hf
    cases i with
    | zero =>
      obtain rfl : x = b := by simpa using h
      simp [hf]
    | succ j =>
      simp only [List.get?_cons_succ] at h
      simp [List.set_cons_succ, ih j a b h hf]

/-- Folding one record into the heatmap preserves the per-day cell layout:
the list of cell dates is unchanged. -/
theorem applyRecord_map_date (cells : List HeatmapCell) (r : YearRecord) :
    (applyRecord cells r).map (·.date) = cells.map (·.date) := by
  unfold applyRecord
  cases hg : cells.get? r.day with
  | none => rfl
  | some c => exact map_set_of_eq _ cells r.day (updateCell c r) c hg rfl

/-- Folding any record list into the heatmap preserves the cell dates. -/
theorem foldl_applyRecord_map_date (records : List YearRecord) :
    ∀ cells : List HeatmapCell,
      (records.foldl applyRecord cells).map (·.date) = cells.map (·.date) := by
  induction records with
  | nil => intro cells; rfl
  | cons r rs ih =>
    intro cells
    simp only [List.foldl_cons]
    rw [ih (applyRecord cells r), applyRecord_map_date]

/-- Claim C1 (amended): for every NONEMPTY set of active habits, every year
and every record set, the heatmap has exactly one cell per calendar day of
the year — `daysInYear` cells, 366 in a leap year and 365 otherwise, with
the contiguous day offsets 0, 1, …, `daysInYear - 1` and no gaps — and
every cell is pre-initialized to the zero state (totalHabits = habit
count, completedHabits = 0, completionRate = 0, empty per-habit list)
before the records are folded in.  With zero active habits the route
instead returns an empty heatmap (see the counterexample). -/
theorem heatmap_one_cell_per_day (n : Nat) (year : Int)
    (records : List YearRecord) (hn : n ≠ 0) :
    (heatmapEndpoint n year records).length = daysInYear year ∧
    (heatmapEndpoint n year records).map (·.date) =
      List.range (daysInYear year) ∧
    daysInYear year = (if isLeapYear year then 366 else 365) ∧
    ∀ c ∈ heatmapInit n year, c.totalHabits = n ∧ c.completedHabits = 0 ∧
      c.completionRate = 0 ∧ c.habits = [] := by
  have hinit : (heatmapInit n year).map (·.date) =
      List.range (daysInYear year) := by
    unfold heatmapInit
    rw [List.map_map]
    exact List.map_id (List.range (daysInYear year))
  have hmap : (heatmapEndpoint n year records).map (·.date) =
      List.range (daysInYear year) := by
    unfold heatmapEndpoint
    rw [if_neg hn, foldl_applyRecord_map_date, hinit]
  refine ⟨?_, hmap, ?_, ?_⟩
  · have := congrArg List.length hmap
    simpa using this
  · cases h : isLeapYear year <;> simp [daysInYear, monthLength, h] <;> rfl
  · intro c hc
    unfold heatmapInit at hc
    rcases List.mem_map.mp hc with ⟨i, _, rfl⟩
    exact ⟨rfl, rfl, rfl, rfl⟩

/-- Witness for the amended C1 theorem at 2 habits, the non-leap year 2023
and a one-record input: the output still has one cell per day. -/
theorem heatmap_one_cell_per_day_witness :
    (heatmapEndpoint 2 2023 [⟨0, 3, true⟩]).length = daysInYear 2023 :=
  (heatmap_one_cell_per_day 2 2023 [⟨0, 3, true⟩] (by decide)).1

/-- Claim C1, as stated, is false for a user with zero active habits: the
route then returns an empty `heatmapData` object — zero cells — rather
than one zero-state cell per day of the (leap) year 2024. -/
theorem heatmap_zero_habits_empty_counterexample :
    heatmapEndpoint 0 2024 [] = [] ∧
    (heatmapEndpoint 0 2024 []).length = 0 ∧
    daysInYear 2024 = 366 := by decide

/-! ## Streak helper lemmas -/

/-- Unfolded form of `getCurrentStreak` (the `let`s zeta-reduce). -/
theorem getCurrentStreak_def (records : List TrackingEntry) (today : Int) :
    getCurrentStreak records today =
      (if ((sortDesc ((records.filter (·.completed)).map (·.date))).take
            100).isEmpty then 0
       else
        streakWalk
          ((sortDesc ((records.filter (·.completed)).map (·.date))).take 100)
          (if ((sortDesc ((records.filter (·.completed)).map (·.date))).take
                100).contains today then today
           else today - 1)) := rfl

/-- Unfolded form of `specCurrentStreak`. -/
theorem specCurrentStreak_def (records : List TrackingEntry) (today : Int) :
    specCurrentStreak records today =
      predWalk (hasCompleted records) (records.length + 1)
        (if hasCompleted records today then today else today - 1) := rfl

/-- One-step unfolding of the fuel walk. -/
theorem predWalk_succ (P : Int → Bool) (f : Nat) (d : Int) :
    predWalk P (f + 1) d =
      (if P d then predWalk P f (d - 1) + 1 else 0) := rfl

/-- Inserting an element permutes with consing it. -/
theorem insertDesc_perm (e : Int) (l : List Int) :
    List.Perm (insertDesc e l) (e :: l) := by
  induction l with
  | nil => exact List.Perm.refl _
  | cons x xs ih =>
    unfold insertDesc
    by_cases h : x ≤ e
    · rw [if_pos h]
    · rw [if_neg h]
      exact (ih.cons x).trans (List.Perm.swap e x xs)

/-- `sortDesc` permutes its input. -/
theorem sortDesc_perm (l : List Int) : List.Perm (sortDesc l) l := by
  induction l with
  | nil => exact List.Perm.refl _
  | cons x xs ih =>
    exact (insertDesc_perm x (sortDesc xs)).trans (ih.cons x)

/-- Inserting preserves the nonincreasing order. -/
theorem insertDesc_pairwise {e : Int} {l : List Int}
    (h : l.Pairwise (fun a b => b ≤ a)) :
    (insertDesc e l).Pairwise (fun a b => b ≤ a) := by
  induction l with
  | nil => simp [insertDesc]
  | cons x xs ih =>
    rcases List.pairwise_cons.mp h with ⟨hx, hxs⟩
    unfold insertDesc
    by_cases hxe : x ≤ e
    · rw [if_pos hxe]
      refine List.pairwise_cons.mpr ⟨?_, h⟩
      intro y hy
      rcases List.mem_cons.mp hy with rfl | hy
      · exact hxe
      · exact (hx y hy).trans hxe
    · rw [if_neg hxe]
      refine List.pairwise_cons.mpr ⟨?_, ih hxs⟩
      intro y hy
      have hy2 : y ∈ e :: xs := (insertDesc_perm e xs).mem_iff.mp hy
      rcases List.mem_cons.mp hy2 with rfl | hy2
      · omega
      · exact hx y hy2

/-- `sortDesc` output is nonincreasing. -/
theorem sortDesc_pairwise (l : List Int) :
    (sortDesc l).Pairwise (fun a b => b ≤ a) := by
  induction l with
  | nil => simp [sortDesc]
  | cons x xs ih => exact insertDesc_pairwise ih

/-- When the input values are pairwise distinct, `sortDesc` is strictly
decreasing. -/
theorem sortDesc_strict {l : List Int} (hd : l.Pairwise (· ≠ ·)) :
    (sortDesc l).Pairwise (fun a b => b < a) := by
  have h1 := sortDesc_pairwise l
  have h2 : (sortDesc l).Pairwise (· ≠ ·) :=
    (List.Perm.pairwise_iff (fun h => h.symm) (sortDesc_perm l)).mpr hd
  exact (h1.and h2).imp (fun h => by omega)

/-- The walk never counts more than the list length. -/
theorem streakWalk_le_length :
    ∀ (l : List Int) (cur : Int), streakWalk l cur ≤ l.length := by
  intro l
  induction l with
  | nil => intro cur; exact Nat.le_refl 0
  | cons d rest ih =>
    intro cur
    unfold streakWalk
    split_ifs with h1 h2
    · simpa using Nat.succ_le_succ (ih (cur - 1))
    · exact Nat.zero_le _
    · exact (ih cur).trans (by simp)

/-- On a strictly decreasing list bounded by the target, truncation caps
the walk: the walk over `take n` is the walk over the whole list capped
at `n`. -/
theorem streakWalk_take :
    ∀ (l : List Int) (n : Nat) (cur : Int),
      l.Pairwise (fun a b => b < a) → (∀ x ∈ l, x ≤ cur) →
      streakWalk (l.take n) cur = min (streakWalk l cur) n := by
  intro l
  induction l with
  | nil =>
    intro n cur _ _
    simp [streakWalk]
  | cons d rest ih =>
    intro n cur hsort hle
    rcases List.pairwise_cons.mp hsort with ⟨hd_gt, hrest⟩
    cases n with
    | zero => simp [streakWalk]
    | succ m =>
      rw [List.take_succ_cons]
      by_cases h1 : d = cur
      · subst h1
        rw [show streakWalk (d :: List.take m rest) d =
              streakWalk (List.take m rest) (d - 1) + 1 from by
            simp [streakWalk]]
        rw [show streakWalk (d :: rest) d =
              streakWalk rest (d - 1) + 1 from by simp [streakWalk]]
        rw [ih m (d - 1) hrest (by
          intro x hx
          have := hd_gt x hx
          omega)]
        omega
      · have hdlt : d < cur := by
          have := hle d (List.mem_cons_self d rest)
          omega
        rw [show streakWalk (d :: List.take m rest) cur = 0 from by
            simp [streakWalk, h1, hdlt]]
        rw [show streakWalk (d :: rest) cur = 0 from by
            simp [streakWalk, h1, hdlt]]
        simp

/-- The predicate walk only inspects days at or below its start. -/
theorem predWalk_congr_le :
    ∀ (fuel : Nat) (d : Int) (P Q : Int → Bool),
      (∀ x, x ≤ d → P x = Q x) → predWalk P fuel d = predWalk Q fuel d := by
  intro fuel
  induction fuel with
  | zero => intros; rfl
  | succ f ih =>
    intro d P Q h
    unfold predWalk
    rw [h d (le_refl d)]
    cases hq : Q d with
    | false => simp [hq]
    | true => simp [hq, ih (d - 1) P Q fun x hx => h x (by omega)]

/-- Once the fuel exceeds the walk it no longer matters. -/
theorem predWalk_fuel_stable :
    ∀ (f : Nat) (P : Int → Bool) (d : Int), predWalk P f d < f →
      ∀ f2, f ≤ f2 → predWalk P f2 d = predWalk P f d := by
  intro f
  induction f with
  | zero => intro P d h; exact absurd h (Nat.not_lt_zero _)
  | succ f ih =>
    intro P d h f2 hf2
    obtain ⟨g, rfl⟩ : ∃ g, f2 = g + 1 := ⟨f2 - 1, by omega⟩
    rw [predWalk_succ] at h
    rw [predWalk_succ, predWalk_succ]
    cases hq : P d with
    | false => simp
    | true =>
      rw [hq] at h
      simp only [eq_self_iff_true, if_true] at h ⊢
      rw [ih P (d - 1) (by omega) g (by omega)]

/-- Over a strictly decreasing list bounded by the target, the structural
walk agrees with the membership-predicate walk, given enough fuel. -/
theorem streakWalk_eq_predWalk :
    ∀ (l : List Int) (cur : Int) (fuel : Nat),
      l.Pairwise (fun a b => b < a) → (∀ x ∈ l, x ≤ cur) →
      l.length < fuel →
      streakWalk l cur = predWalk (fun d => l.contains d) fuel cur := by
  intro l
  induction l with
  | nil =>
    intro cur fuel _ _ hf
    obtain ⟨f, rfl⟩ : ∃ f, fuel = f + 1 := ⟨fuel - 1, by omega⟩
    simp [streakWalk, predWalk]
  | cons d rest ih =>
    intro cur fuel hsort hle hf
    obtain ⟨f, rfl⟩ : ∃ f, fuel = f + 1 := ⟨fuel - 1, by omega⟩
    rcases List.pairwise_cons.mp hsort with ⟨hd_gt, hrest⟩
    have hdc : d ≤ cur := hle d (List.mem_cons_self d rest)
    by_cases h1 : d = cur
    · subst h1
      rw [show streakWalk (d :: rest) d = streakWalk rest (d - 1) + 1 from by
        simp [streakWalk]]
      unfold predWalk
      rw [if_pos (by simp)]
      congr 1
      rw [ih (d - 1) f hrest
        (by intro x hx; have := hd_gt x hx; omega)
        (by simp at hf; omega)]
      apply predWalk_congr_le
      intro x hx
      have hxd : x ≠ d := by omega
      rw [List.contains_cons]
      rw [show (x == d) = false from beq_eq_false_iff_ne.mpr hxd]
      simp
    · have hdlt : d < cur := by omega
      rw [show streakWalk (d :: rest) cur = 0 from by
        simp [streakWalk, h1, hdlt]]
      unfold predWalk
      rw [if_neg ?_]
      simp only [List.contains_cons, Bool.or_eq_true, not_or]
      constructor
      · simp only [beq_iff_eq]
        omega
      · intro hc
        have hmem : cur ∈ rest := by simpa using hc
        have := hd_gt cur hmem
        omega

/-- `hasCompleted` coincides with membership in the sorted completed-date
list the streak walk runs over. -/
theorem hasCompleted_eq_contains (records : List TrackingEntry) (d : Int) :
    hasCompleted records d =
      (sortDesc ((records.filter (·.completed)).map (·.date))).contains d := by
  rw [Bool.eq_iff_iff]
  unfold hasCompleted
  constructor
  · intro h
    rcases List.any_eq_true.mp h with ⟨e, he, hed⟩
    have hed2 : e.date = d ∧ e.completed = true := by simpa using hed
    have hmem : d ∈ (records.filter (·.completed)).map (·.date) := by
      refine List.mem_map.mpr ⟨e, List.mem_filter.mpr ⟨he, hed2.2⟩, hed2.1⟩
    have : d ∈ sortDesc ((records.filter (·.completed)).map (·.date)) :=
      (sortDesc_perm _).mem_iff.mpr hmem
    simpa using this
  · intro h
    have hmem : d ∈ sortDesc ((records.filter (·.completed)).map (·.date)) := by
      simpa using h
    have : d ∈ (records.filter (·.completed)).map (·.date) :=
      (sortDesc_perm _).mem_iff.mp hmem
    rcases List.mem_map.mp this with ⟨e, hef, rfl⟩
    rcases List.mem_filter.mp hef with ⟨he, hcomp⟩
    refine List.any_eq_true.mpr ⟨e, he, ?_⟩
    simp [hcomp]

/-- In a strictly decreasing list bounded above by a member `c`, that
member is the head. -/
theorem sorted_top_mem {l : List Int} {c : Int}
    (hs : l.Pairwise (fun a b => b < a)) (hle : ∀ x ∈ l, x ≤ c)
    (hc : c ∈ l) : ∃ t, l = c :: t := by
  cases l with
  | nil => simp at hc
  | cons a t =>
    rcases List.mem_cons.mp hc with rfl | hct
    · exact ⟨t, rfl⟩
    · have h1 := (List.pairwise_cons.mp hs).1 c hct
      have h2 := hle a (List.mem_cons_self a t)
      omega

/-! ## Claim C3 — the current-streak walk -/

/-- Claim C3 (amended): for records with pairwise-distinct dates none of
which lies in the future, the computed current streak equals the streak
the spec describes — anchor at today when today has a completed record
and at yesterday otherwise, then count consecutive days with a completed
record, a `completed = false` record breaking the streak exactly like a
missing day — except that it is capped at 100, because the query fetches
only the 100 most recent completed entries.  Determinism is immediate:
both sides are functions of the record set. -/
theorem getCurrentStreak_eq_spec_capped (records : List TrackingEntry)
    (today : Int)
    (hdist : (records.map (·.date)).Pairwise (· ≠ ·))
    (hle : ∀ e ∈ records, e.date ≤ today) :
    getCurrentStreak records today = min (specCurrentStreak records today) 100 := by
  set L := sortDesc ((records.filter (·.completed)).map (·.date)) with hL
  have hperm : List.Perm L ((records.filter (·.completed)).map (·.date)) :=
    sortDesc_perm _
  have hsorted : L.Pairwise (fun a b => b < a) := by
    have hsub : List.Sublist ((records.filter (·.completed)).map (·.date))
        (records.map (·.date)) :=
      (List.filter_sublist records).map (·.date)
    exact sortDesc_strict (hdist.sublist hsub)
  have hleL : ∀ x ∈ L, x ≤ today := by
    intro x hx
    rw [hperm.mem_iff] at hx
    rcases List.mem_map.mp hx with ⟨e, he, rfl⟩
    exact hle e (List.mem_filter.mp he).1
  have hhc : ∀ d, hasCompleted records d = L.contains d := by
    intro d
    rw [hasCompleted_eq_contains records d, hL]
  by_cases hLnil : L = []
  · have h0 : getCurrentStreak records today = 0 := by
      rw [getCurrentStreak_def, ← hL, hLnil]
      simp
    have hs0 : specCurrentStreak records today = 0 := by
      rw [specCurrentStreak_def]
      unfold predWalk
      rw [if_neg (by rw [hhc, hLnil]; simp)]
    rw [h0, hs0]
    simp
  · have hanchor : ((L.take 100).contains today) = hasCompleted records today := by
      rw [hhc today, Bool.eq_iff_iff]
      constructor
      · intro h
        have hmem : today ∈ L.take 100 := by simpa using h
        have : today ∈ L := List.mem_of_mem_take hmem
        simpa using this
      · intro h
        have hmem : today ∈ L := by simpa using h
        obtain ⟨t, ht⟩ := sorted_top_mem hsorted hleL hmem
        rw [ht, List.take_succ_cons]
        simp
    set anchor := if hasCompleted records today then today else today - 1
      with ha
    have hanchor_le : ∀ x ∈ L, x ≤ anchor := by
      intro x hx
      by_cases ht : hasCompleted records today = true
      · rw [ha, if_pos ht]
        exact hleL x hx
      · rw [ha, if_neg ht]
        have hxt : x ≤ today := hleL x hx
        have hxne : x ≠ today := by
          rintro rfl
          apply ht
          rw [hhc]
          simpa using hx
        omega
    have htake_ne : ¬(L.take 100).isEmpty = true := by
      rw [List.isEmpty_eq_true]
      intro hcontra
      rcases List.take_eq_nil_iff.mp hcontra with h | h
      · simp at h
      · exact hLnil h
    have hcode : getCurrentStreak records today =
        streakWalk (L.take 100) anchor := by
      rw [getCurrentStreak_def, ← hL]
      rw [if_neg htake_ne, hanchor, ← ha]
    have hwalk_take : streakWalk (L.take 100) anchor =
        min (streakWalk L anchor) 100 :=
      streakWalk_take L 100 anchor hsorted hanchor_le
    have hwalk_pred : streakWalk L anchor =
        predWalk (fun d => L.contains d) (L.length + 1) anchor :=
      streakWalk_eq_predWalk L anchor (L.length + 1) hsorted hanchor_le
        (by omega)
    have hfun : (fun d => L.contains d) = hasCompleted records := by
      funext d
      rw [hhc d]
    have hlenL : L.length ≤ records.length := by
      rw [hperm.length_eq, List.length_map]
      exact List.length_filter_le _ _
    have hstab : predWalk (hasCompleted records) (records.length + 1) anchor =
        predWalk (hasCompleted records) (L.length + 1) anchor := by
      apply predWalk_fuel_stable
      · rw [← hfun, ← hwalk_pred]
        have := streakWalk_le_length L anchor
        omega
      · omega
    rw [hcode, hwalk_take, hwalk_pred, hfun, specCurrentStreak_def, ← ha,
      hstab]

/-- Witness for the amended C3 theorem: two completed records on today and
yesterday give streak 2 on both sides. -/
theorem getCurrentStreak_eq_spec_capped_witness :
    getCurrentStreak [⟨0, true, none, none⟩, ⟨-1, true, none, none⟩] 0 =
      min (specCurrentStreak [⟨0, true, none, none⟩, ⟨-1, true, none, none⟩] 0)
        100 :=
  getCurrentStreak_eq_spec_capped
    [⟨0, true, none, none⟩, ⟨-1, true, none, none⟩] 0 (by decide) (by decide)

/-- Claim C3, as stated, is false for long runs: 101 consecutive completed
days ending today walk to 101 under the spec's rule, but the code reports
100 because only the 100 most recent completed entries are fetched. -/
theorem currentStreak_cap_counterexample :
    getCurrentStreak
      ((List.range 101).map (fun i => ⟨-(i : Int), true, none, none⟩)) 0 = 100 ∧
    specCurrentStreak
      ((List.range 101).map (fun i => ⟨-(i : Int), true, none, none⟩)) 0 = 101 := by
  constructor
  · decide
  · decide

/-! ## Claim C10 — the 100-entry cap bounds the streak -/

/-- Claim C10: the reported current streak never exceeds 100 (the query
limit) nor the number of records, for every record set whatsoever. -/
theorem currentStreak_bounds (records : List TrackingEntry) (today : Int) :
    getCurrentStreak records today ≤ 100 ∧
    getCurrentStreak records today ≤ records.length := by
  rw [getCurrentStreak_def]
  set L := sortDesc ((records.filter (·.completed)).map (·.date)) with hL
  have hlenL : L.length ≤ records.length := by
    rw [hL, (sortDesc_perm _).length_eq, List.length_map]
    exact List.length_filter_le _ _
  by_cases h : (L.take 100).isEmpty
  · rw [if_pos h]
    exact ⟨Nat.zero_le _, Nat.zero_le _⟩
  · rw [if_neg h]
    have hwle := streakWalk_le_length (L.take 100)
      (if (L.take 100).contains today = true then today else today - 1)
    have hlen : (L.take 100).length = min 100 L.length := List.length_take _ _
    constructor <;> omega

end HabitAnalytics

